import Mathlib

/-!
Shallow embedding of the RF transform and circle-geometry engine of the
`smith` repository (`src/src/index.ts`, class `SmithConstantCircle`, and
`src/src/Smith.ts`, class `Smith`).  JavaScript numbers are modelled as
real numbers; `Complex|undefined` return values become `Option Complex`.
-/

namespace SmithEngine

/-- Modelled from the spec: the `Complex` value type of
`src/complex/Complex.ts` (file absent from the sources): an immutable pair
`real`, `imag` of floats. -/
structure Complex where
  real : ℝ
  imag : ℝ

/-- Modelled from the spec: `Complex` magnitude `sqrt(real² + imag²)`
(the source's `c.abs()`). -/
noncomputable def Complex.abs (c : Complex) : ℝ :=
  Real.sqrt (c.real ^ 2 + c.imag ^ 2)

/-- Modelled from the spec: `Point` of `src/shapes/Point.ts` (file absent
from the sources): a 2-tuple of reals. -/
abbrev Point : Type := ℝ × ℝ

/-- Modelled from the spec: `Circle` of `src/shapes/Circle.ts` (file absent
from the sources): a center point `p` and a radius `r`. -/
structure Circle where
  p : Point
  r : ℝ

namespace SmithConstantCircle

/-- `private epsilon = 1e-10` of `SmithConstantCircle`. -/
def epsilon : ℝ := 1e-10

/-- `rflCoeffToImpedance` (src/src/index.ts:27-37). -/
noncomputable def rflCoeffToImpedance (c : Complex) : Option Complex :=
  let gr := c.real
  let gi := c.imag
  let d := (1 - gr) * (1 - gr) + gi * gi
  if |d| < epsilon then
    none
  else
    some ⟨(1 - gr * gr - gi * gi) / d, (2 * gi) / d⟩

/-- `impedanceToRflCoeff` (src/src/index.ts:39-49). -/
noncomputable def impedanceToRflCoeff (c : Complex) : Option Complex :=
  let zr := c.real
  let zi := c.imag
  let d := (zr + 1) * (zr + 1) + zi * zi
  if |d| < epsilon then
    none
  else
    some ⟨(zr * zr + zi * zi - 1) / d, (2 * zi) / d⟩

/-- `rflCoeffToAdmittance` (src/src/index.ts:51-61). -/
noncomputable def rflCoeffToAdmittance (c : Complex) : Option Complex :=
  let gr := c.real
  let gi := c.imag
  let d := (gr + 1) * (gr + 1) + gi * gi
  if |d| < epsilon then
    none
  else
    some ⟨(1 - gr * gr - gi * gi) / d, (-2 * gi) / d⟩

/-- `admittanceToRflCoeff` (src/src/index.ts:63-73). -/
noncomputable def admittanceToRflCoeff (c : Complex) : Option Complex :=
  let yr := c.real
  let yi := c.imag
  let d := (yr + 1) * (yr + 1) + yi * yi
  if |d| < epsilon then
    none
  else
    some ⟨(1 - yr * yr - yi * yi) / d, (-2 * yi) / d⟩

/-- `resistanceCircle` (src/src/index.ts:75-77). -/
noncomputable def resistanceCircle (n : ℝ) : Circle :=
  { p := (n / (n + 1), 0), r := 1 / (n + 1) }

/-- `reactanceCircle` (src/src/index.ts:79-81). -/
noncomputable def reactanceCircle (n : ℝ) : Circle :=
  { p := (1, 1 / n), r := |1 / n| }

/-- `conductanceCircle` (src/src/index.ts:83-85). -/
noncomputable def conductanceCircle (n : ℝ) : Circle :=
  { p := (-n / (n + 1), 0), r := 1 / (n + 1) }

/-- `susceptanceCircle` (src/src/index.ts:87-89). -/
noncomputable def susceptanceCircle (n : ℝ) : Circle :=
  { p := (-1, -1 / n), r := |1 / n| }

/-- `constQCircle` (src/src/index.ts:91-94). -/
noncomputable def constQCircle (q : ℝ) : Circle :=
  { p := (0, 1 / q), r := Real.sqrt (1 + 1 / (q * q)) }

/-- `rflCoeffToSwr` (src/src/index.ts:96-99). -/
noncomputable def rflCoeffToSwr (rc : Complex) : ℝ :=
  let gamma := rc.abs
  (1 + gamma) / (1 - gamma)

/-- `swrToRflCoeffEOrI` (src/src/index.ts:105-107). -/
noncomputable def swrToRflCoeffEOrI (swr : ℝ) : ℝ :=
  (swr - 1) / (swr + 1)

/-- `swrTodBS` (src/src/index.ts:109-111); `Math.log10` is `Real.logb 10`. -/
noncomputable def swrTodBS (swr : ℝ) : ℝ :=
  20 * Real.logb 10 swr

/-- `dBSToSwr` (src/src/index.ts:113-115); `10 ** x` is the real power. -/
noncomputable def dBSToSwr (dBS : ℝ) : ℝ :=
  (10 : ℝ) ^ (dBS / 20)

/-- `rflCoeffP` (src/src/index.ts:144-146). -/
noncomputable def rflCoeffP (rc : Complex) : ℝ :=
  rc.abs ^ 2

/-- `rflCoeffEOrI` (src/src/index.ts:140-142). -/
noncomputable def rflCoeffEOrI (rc : Complex) : ℝ :=
  Real.sqrt (rflCoeffP rc)

/-- `rflCoeffToReturnLoss` (src/src/index.ts:122-124). -/
noncomputable def rflCoeffToReturnLoss (rc : Complex) : ℝ :=
  -20 * Real.logb 10 (rflCoeffEOrI rc)

/-- `returnLossToRflCoeffEOrI` (src/src/index.ts:126-128). -/
noncomputable def returnLossToRflCoeffEOrI (rl : ℝ) : ℝ :=
  (10 : ℝ) ^ (-rl / 20)

/-- `rflCoeffToMismatchLoss` (src/src/index.ts:130-134). -/
noncomputable def rflCoeffToMismatchLoss (rc : Complex) : ℝ :=
  -10 * Real.logb 10 (1 - rflCoeffEOrI rc ^ 2)

/-- `rflCoeffToReturnLoss` again, with the IEEE-754 behaviour at magnitude
zero made explicit in `EReal`: there `Math.log10(0) = -Infinity` and
`-20.0 * -Infinity = +Infinity`, so the source returns positive infinity;
on positive magnitudes it agrees with `rflCoeffToReturnLoss`. -/
noncomputable def rflCoeffToReturnLossE (rc : Complex) : EReal :=
  if rflCoeffEOrI rc = 0 then ⊤
  else ((-20 * Real.logb 10 (rflCoeffEOrI rc) : ℝ) : EReal)

/-- `rflCoeffToQ` (src/src/index.ts:152-156). -/
noncomputable def rflCoeffToQ (rc : Complex) : Option ℝ :=
  match rflCoeffToImpedance rc with
  | none => none
  | some impedance => some |impedance.imag / impedance.real|

/-- `circleCircleIntersection` (src/src/index.ts:206-222). -/
noncomputable def circleCircleIntersection (c1 c2 : Circle) : List Point :=
  let dl := Real.sqrt ((c2.p.1 - c1.p.1) ^ 2 + (c2.p.2 - c1.p.2) ^ 2)
  let cosA := (dl * dl + c1.r * c1.r - c2.r * c2.r) / (2 * dl * c1.r)
  let sinA := Real.sqrt (1 - cosA ^ 2)
  let vpx := (c2.p.1 - c1.p.1) * c1.r / dl
  let vpy := (c2.p.2 - c1.p.2) * c1.r / dl
  [(vpx * cosA - vpy * sinA + c1.p.1,
    vpx * sinA + vpy * cosA + c1.p.2),
   (vpx * cosA + vpy * sinA + c1.p.1,
    vpy * cosA - vpx * sinA + c1.p.2)]

/-- `isPointWithinCircle` (src/src/index.ts:224-226). -/
noncomputable def isPointWithinCircle (p : Point) (c : Circle) : Prop :=
  (p.1 - c.p.1) ^ 2 + (p.2 - c.p.2) ^ 2 ≤ c.r ^ 2

/-- `waveLengthFromFrequency` (src/src/index.ts:236-238). -/
noncomputable def waveLengthFromFrequency (frequency : ℝ) : ℝ :=
  299792458 / frequency

/-- `frequencyFromWaveLength` (src/src/index.ts:240-242); note the source
multiplies by the speed of light instead of dividing. -/
noncomputable def frequencyFromWaveLength (waveLength : ℝ) : ℝ :=
  299792458 * waveLength

end SmithConstantCircle

namespace Smith

open SmithConstantCircle

/-- `Smith.calcImpedance` (src/src/Smith.ts:373-380), for reference
impedance `Z0`: the engine's reflection-coefficient-to-impedance transform
(the `reflectionCoefficientToImpedance` alias of `rflCoeffToImpedance`)
denormalized by `Z0` on both components. -/
noncomputable def calcImpedance (Z0 : ℝ) (rc : Complex) : Option Point :=
  (rflCoeffToImpedance rc).map fun z => (z.real * Z0, z.imag * Z0)

/-- `Smith.calcAdmittance` (src/src/Smith.ts:381-388), for reference
impedance `Z0`: the reflection-coefficient-to-admittance transform scaled
by `1/Z0 * 1000` (millisiemens) on both components. -/
noncomputable def calcAdmittance (Z0 : ℝ) (rc : Complex) : Option Point :=
  (rflCoeffToAdmittance rc).map fun y => (y.real * (1 / Z0 * 1000), y.imag * (1 / Z0 * 1000))

/-- `Smith.getQ` (src/src/Smith.ts:389-393). -/
noncomputable def getQ (rc : Complex) : Option ℝ :=
  match rflCoeffToImpedance rc with
  | none => none
  | some impedance => some |impedance.imag / impedance.real|

end Smith

end SmithEngine

namespace SmithEngine

open SmithConstantCircle

/-- C2: `rflCoeffToImpedance (1,0)` and `rflCoeffToAdmittance (-1,0)` return
no value, and in general each of the four bilinear transforms returns `none`
exactly when the magnitude of its denominator falls below `epsilon = 1e-10`;
whenever a value is returned the denominator magnitude is at least `epsilon`,
so no division by zero occurs. -/
theorem singular_transform_guard :
    epsilon = 1e-10 ∧
    rflCoeffToImpedance ⟨1, 0⟩ = none ∧
    rflCoeffToAdmittance ⟨-1, 0⟩ = none ∧
    (∀ c : Complex, rflCoeffToImpedance c = none ↔
      |(1 - c.real) * (1 - c.real) + c.imag * c.imag| < epsilon) ∧
    (∀ c : Complex, impedanceToRflCoeff c = none ↔
      |(c.real + 1) * (c.real + 1) + c.imag * c.imag| < epsilon) ∧
    (∀ c : Complex, rflCoeffToAdmittance c = none ↔
      |(c.real + 1) * (c.real + 1) + c.imag * c.imag| < epsilon) ∧
    (∀ c : Complex, admittanceToRflCoeff c = none ↔
      |(c.real + 1) * (c.real + 1) + c.imag * c.imag| < epsilon) := by
  refine ⟨rfl, ?_, ?_, ?_, ?_, ?_, ?_⟩
  · simp only [rflCoeffToImpedance, epsilon]
    norm_num
  · simp only [rflCoeffToAdmittance, epsilon]
    norm_num
  · intro c
    simp only [rflCoeffToImpedance]
    split_ifs with h <;> simp [h]
  · intro c
    simp only [impedanceToRflCoeff]
    split_ifs with h <;> simp [h]
  · intro c
    simp only [rflCoeffToAdmittance]
    split_ifs with h <;> simp [h]
  · intro c
    simp only [admittanceToRflCoeff]
    split_ifs with h <;> simp [h]

/-- C10: the admittance transform is the impedance transform precomposed with
negation: `rflCoeffToAdmittance Γ = rflCoeffToImpedance (-Γ)` — the epsilon
guards coincide and, when defined, the results agree component-wise. -/
theorem rflCoeffToAdmittance_eq_impedance_neg (c : Complex) :
    rflCoeffToAdmittance c = rflCoeffToImpedance ⟨-c.real, -c.imag⟩ := by
  simp only [rflCoeffToAdmittance, rflCoeffToImpedance]
  have hd : (1 - -c.real) * (1 - -c.real) + -c.imag * -c.imag
      = (c.real + 1) * (c.real + 1) + c.imag * c.imag := by ring
  rw [hd]
  have h1 : 1 - -c.real * -c.real - -c.imag * -c.imag
      = 1 - c.real * c.real - c.imag * c.imag := by ring
  have h2 : 2 * -c.imag = -2 * c.imag := by ring
  rw [h1, h2]

/-- C5: `waveLengthFromFrequency` divides the speed of light by the
frequency as the spec says, but `frequencyFromWaveLength` multiplies the
wavelength by 299792458 instead of dividing: at wavelength 2 it returns
599584916 instead of the 149896229 that `299792458 / λ` prescribes. -/
theorem frequencyFromWaveLength_multiplies :
    waveLengthFromFrequency 2 = 299792458 / 2 ∧
    frequencyFromWaveLength 2 = 599584916 ∧
    (299792458 : ℝ) / 2 = 149896229 ∧
    (599584916 : ℝ) ≠ 149896229 := by
  refine ⟨rfl, ?_, ?_, ?_⟩ <;> norm_num [frequencyFromWaveLength]

end SmithEngine

namespace SmithEngine

open SmithConstantCircle

/-- C3: the five circle generators return exactly the table's circles:
`resistanceCircle n` has center `(n/(n+1), 0)` and radius `1/(n+1)` for
`n ≠ -1` (in particular `resistanceCircle 1` = center `(0.5, 0)`, radius
`0.5`); `reactanceCircle n` has center `(1, 1/n)` and radius `|1/n|` for
`n ≠ 0` (in particular `reactanceCircle 1` = center `(1, 1)`, radius `1`);
`conductanceCircle n` has center `(-n/(n+1), 0)` and radius `1/(n+1)`;
`susceptanceCircle n` has center `(-1, -1/n)` and radius `|1/n|`; and
`constQCircle q` has center `(0, 1/q)` and radius `sqrt(1 + 1/q²)` for
`q ≠ 0`. -/
theorem circle_generators_table :
    (∀ n : ℝ, n ≠ -1 → resistanceCircle n = ⟨(n / (n + 1), 0), 1 / (n + 1)⟩) ∧
    (∀ n : ℝ, n ≠ 0 → reactanceCircle n = ⟨(1, 1 / n), |1 / n|⟩) ∧
    (∀ n : ℝ, conductanceCircle n = ⟨(-n / (n + 1), 0), 1 / (n + 1)⟩) ∧
    (∀ n : ℝ, susceptanceCircle n = ⟨(-1, -1 / n), |1 / n|⟩) ∧
    (∀ q : ℝ, q ≠ 0 → constQCircle q = ⟨(0, 1 / q), Real.sqrt (1 + 1 / q ^ 2)⟩) ∧
    resistanceCircle 1 = ⟨(0.5, 0), 0.5⟩ ∧
    reactanceCircle 1 = ⟨(1, 1), 1⟩ := by
  refine ⟨fun n _ => rfl, fun n _ => rfl, fun n => rfl, fun n => rfl, ?_, ?_, ?_⟩
  · intro q _
    have hq : 1 + 1 / (q * q) = 1 + 1 / q ^ 2 := by ring
    simp only [constQCircle, hq]
  · simp only [resistanceCircle, Circle.mk.injEq, Prod.mk.injEq]
    norm_num
  · simp only [reactanceCircle, Circle.mk.injEq, Prod.mk.injEq]
    norm_num

/-- Witness for C3 at concrete parameters. -/
theorem circle_generators_table_witness :
    resistanceCircle 2 = ⟨(2 / (2 + 1), 0), 1 / (2 + 1)⟩ ∧
    reactanceCircle 3 = ⟨(1, 1 / 3), |1 / 3|⟩ ∧
    constQCircle 4 = ⟨(0, 1 / 4), Real.sqrt (1 + 1 / 4 ^ 2)⟩ :=
  ⟨circle_generators_table.1 2 (by norm_num),
   circle_generators_table.2.1 3 (by norm_num),
   circle_generators_table.2.2.2.2.1 4 (by norm_num)⟩

/-- C9 counterexample: `-2` is in the claim's stated domain (`n ≠ -1`) for
`resistanceCircle`, yet the returned radius `1/(-2+1) = -1` is negative. -/
theorem resistanceCircle_negative_radius :
    (-2 : ℝ) ≠ -1 ∧ (resistanceCircle (-2)).r < 0 := by
  constructor <;> norm_num [resistanceCircle]

/-- C9 amended: the radius is non-negative for `n > -1` for
`resistanceCircle` and `conductanceCircle` (for `-1 > n` the formula
`1/(n+1)` is negative), and for every `n ≠ 0` for `reactanceCircle`,
`susceptanceCircle` and `constQCircle`. -/
theorem circle_radius_nonneg :
    (∀ n : ℝ, -1 < n → 0 ≤ (resistanceCircle n).r ∧ 0 ≤ (conductanceCircle n).r) ∧
    (∀ n : ℝ, n ≠ 0 → 0 ≤ (reactanceCircle n).r ∧ 0 ≤ (susceptanceCircle n).r) ∧
    (∀ q : ℝ, q ≠ 0 → 0 ≤ (constQCircle q).r) := by
  refine ⟨fun n hn => ?_, fun n _ => ?_, fun q _ => ?_⟩
  · have h : (0 : ℝ) < n + 1 := by linarith
    constructor <;> simp only [resistanceCircle, conductanceCircle] <;> positivity
  · exact ⟨abs_nonneg _, abs_nonneg _⟩
  · exact Real.sqrt_nonneg _

/-- Witness for C9 amended at `n = 1`, `q = 1`. -/
theorem circle_radius_nonneg_witness :
    (0 ≤ (resistanceCircle 1).r ∧ 0 ≤ (conductanceCircle 1).r) ∧
    (0 ≤ (reactanceCircle 1).r ∧ 0 ≤ (susceptanceCircle 1).r) ∧
    0 ≤ (constQCircle 1).r :=
  ⟨circle_radius_nonneg.1 1 (by norm_num),
   circle_radius_nonneg.2.1 1 (by norm_num),
   circle_radius_nonneg.2.2 1 (by norm_num)⟩

/-- C6 counterexample: at `Γ = (0,1)` the impedance transform returns the
purely reactive impedance `(0,1)` — zero real part — yet `rflCoeffToQ`
does not return "no value": the code executes the unguarded division
`Math.abs(zi/zr)` and returns its result. -/
theorem rflCoeffToQ_zero_real_part :
    rflCoeffToImpedance ⟨0, 1⟩ = some ⟨0, 1⟩ ∧ rflCoeffToQ ⟨0, 1⟩ ≠ none := by
  have h : rflCoeffToImpedance ⟨0, 1⟩ = some ⟨0, 1⟩ := by
    simp only [rflCoeffToImpedance, epsilon]
    norm_num
  exact ⟨h, by simp [rflCoeffToQ, h]⟩

/-- C6 amended: `rflCoeffToQ Γ` returns `none` exactly when
`rflCoeffToImpedance Γ` is singular; otherwise it returns `|zi/zr|` of the
resulting impedance with the division unguarded — at `zr = 0` it still
returns a value (in IEEE floats an infinity or NaN), not "no value";
`Smith.getQ` computes the same function. -/
theorem rflCoeffToQ_spec (rc : Complex) :
    (rflCoeffToQ rc = none ↔ rflCoeffToImpedance rc = none) ∧
    (∀ z : Complex, rflCoeffToImpedance rc = some z →
      rflCoeffToQ rc = some |z.imag / z.real|) ∧
    Smith.getQ rc = rflCoeffToQ rc := by
  refine ⟨?_, ?_, rfl⟩
  · simp only [rflCoeffToQ]
    cases h : rflCoeffToImpedance rc <;> simp [h]
  · intro z h
    simp [rflCoeffToQ, h]

/-- Witness for C6 amended at `Γ = (0,0)`, where the impedance is `(1,0)`. -/
theorem rflCoeffToQ_spec_witness :
    rflCoeffToQ ⟨0, 0⟩ = some |(0 : ℝ) / 1| := by
  have h : rflCoeffToImpedance ⟨0, 0⟩ = some ⟨1, 0⟩ := by
    simp only [rflCoeffToImpedance, epsilon]
    norm_num
  exact (rflCoeffToQ_spec ⟨0, 0⟩).2.1 ⟨1, 0⟩ h

end SmithEngine

namespace SmithEngine

open SmithConstantCircle

/-- C1 counterexample: `Γ = (0.999998, 0)` has `|Γ| = 1 - 2e-6 < 1 - 1e-6`,
yet `rflCoeffToImpedance Γ` returns no value: its denominator is
`(2e-6)² = 4e-12`, below the `epsilon = 1e-10` guard. -/
theorem roundtrip_claim_counterexample :
    Complex.abs ⟨0.999998, 0⟩ < 1 - 1e-6 ∧
    rflCoeffToImpedance ⟨0.999998, 0⟩ = none := by
  constructor
  · have habs : Complex.abs ⟨0.999998, 0⟩ = 0.999998 := by
      simp only [Complex.abs]
      rw [show (0.999998 : ℝ) ^ 2 + 0 ^ 2 = 0.999998 ^ 2 by norm_num,
        Real.sqrt_sq (by norm_num)]
    rw [habs]; norm_num
  · simp only [rflCoeffToImpedance, epsilon]
    norm_num
    intro hcontra
    rw [abs_of_nonneg (by norm_num)] at hcontra
    norm_num at hcontra

/-- C1 amended: for every `Γ` with `|Γ| < 1 - 1e-5` (rather than the claimed
`1 - 1e-6`, which does not clear the `epsilon = 1e-10` denominator guard),
`rflCoeffToImpedance Γ` returns a value `z`, `impedanceToRflCoeff z` returns
a value equal to `Γ` within `1e-9` per component, and the symmetric
round-trip through `rflCoeffToAdmittance` and `admittanceToRflCoeff` also
returns `Γ` within `1e-9` per component. -/
theorem roundtrip_amended (g : Complex) (h : g.abs < 1 - 1e-5) :
    (∃ z, rflCoeffToImpedance g = some z ∧
      ∃ g', impedanceToRflCoeff z = some g' ∧
        |g'.real - g.real| ≤ 1e-9 ∧ |g'.imag - g.imag| ≤ 1e-9) ∧
    (∃ y, rflCoeffToAdmittance g = some y ∧
      ∃ g', admittanceToRflCoeff y = some g' ∧
        |g'.real - g.real| ≤ 1e-9 ∧ |g'.imag - g.imag| ≤ 1e-9) := by
  obtain ⟨gr, gi⟩ := g
  simp only [Complex.abs] at h
  have hs : gr ^ 2 + gi ^ 2 < (1 - 1e-5) ^ 2 :=
    (Real.sqrt_lt' (by norm_num)).mp h
  have hgr1 : gr < 1 - 1e-5 := by nlinarith [sq_nonneg gi]
  have hgr2 : -(1 - 1e-5) < gr := by nlinarith [sq_nonneg gi]
  have hD : (1e-10 : ℝ) ≤ (1 - gr) * (1 - gr) + gi * gi := by
    nlinarith [mul_self_nonneg gi, sq_nonneg (1 - gr - 1e-5)]
  have hF : (1e-10 : ℝ) ≤ (gr + 1) * (gr + 1) + gi * gi := by
    nlinarith [mul_self_nonneg gi, sq_nonneg (gr + 1 - 1e-5)]
  have hDpos : (0 : ℝ) < (1 - gr) * (1 - gr) + gi * gi := by linarith
  have hFpos : (0 : ℝ) < (gr + 1) * (gr + 1) + gi * gi := by linarith
  have hD0 : (1 - gr) * (1 - gr) + gi * gi ≠ 0 := ne_of_gt hDpos
  have hF0 : (gr + 1) * (gr + 1) + gi * gi ≠ 0 := ne_of_gt hFpos
  have hDle : (1 - gr) * (1 - gr) + gi * gi ≤ 4 := by nlinarith [sq_nonneg gi]
  have hFle : (gr + 1) * (gr + 1) + gi * gi ≤ 4 := by nlinarith [sq_nonneg gi]
  constructor
  · -- impedance round trip
    have hg1 : ¬ (|(1 - gr) * (1 - gr) + gi * gi| < epsilon) := by
      rw [abs_of_nonneg (le_of_lt hDpos), epsilon]
      exact not_lt.mpr hD
    refine ⟨⟨(1 - gr * gr - gi * gi) / ((1 - gr) * (1 - gr) + gi * gi),
            (2 * gi) / ((1 - gr) * (1 - gr) + gi * gi)⟩, ?_, ?_⟩
    · simp only [rflCoeffToImpedance]
      rw [if_neg hg1]
    · have hden : ((1 - gr * gr - gi * gi) / ((1 - gr) * (1 - gr) + gi * gi) + 1) *
            ((1 - gr * gr - gi * gi) / ((1 - gr) * (1 - gr) + gi * gi) + 1) +
            (2 * gi) / ((1 - gr) * (1 - gr) + gi * gi) *
            ((2 * gi) / ((1 - gr) * (1 - gr) + gi * gi))
          = 4 / ((1 - gr) * (1 - gr) + gi * gi) := by
        field_simp
        ring
      have hdenge : (1 : ℝ) ≤ 4 / ((1 - gr) * (1 - gr) + gi * gi) :=
        (one_le_div hDpos).mpr (by linarith)
      have hg2 : ¬ (|((1 - gr * gr - gi * gi) / ((1 - gr) * (1 - gr) + gi * gi) + 1) *
            ((1 - gr * gr - gi * gi) / ((1 - gr) * (1 - gr) + gi * gi) + 1) +
            (2 * gi) / ((1 - gr) * (1 - gr) + gi * gi) *
            ((2 * gi) / ((1 - gr) * (1 - gr) + gi * gi))| < epsilon) := by
        rw [hden, abs_of_nonneg (by positivity), epsilon]
        push_neg
        linarith
      have hnum_re : (1 - gr * gr - gi * gi) / ((1 - gr) * (1 - gr) + gi * gi) *
            ((1 - gr * gr - gi * gi) / ((1 - gr) * (1 - gr) + gi * gi)) +
            (2 * gi) / ((1 - gr) * (1 - gr) + gi * gi) *
            ((2 * gi) / ((1 - gr) * (1 - gr) + gi * gi)) - 1
          = gr * (4 / ((1 - gr) * (1 - gr) + gi * gi)) := by
        field_simp
        ring
      have hnum_im : 2 * ((2 * gi) / ((1 - gr) * (1 - gr) + gi * gi))
          = gi * (4 / ((1 - gr) * (1 - gr) + gi * gi)) := by
        field_simp
        ring
      have h40 : 4 / ((1 - gr) * (1 - gr) + gi * gi) ≠ 0 := by positivity
      refine ⟨⟨gr, gi⟩, ?_, ?_, ?_⟩
      · simp only [impedanceToRflCoeff]
        rw [if_neg hg2, hnum_re, hnum_im, hden, mul_div_assoc, mul_div_assoc,
          div_self h40, mul_one, mul_one]
      · simp only [sub_self, abs_zero]
        norm_num
      · simp only [sub_self, abs_zero]
        norm_num
  · -- admittance round trip
    have hg1 : ¬ (|(gr + 1) * (gr + 1) + gi * gi| < epsilon) := by
      rw [abs_of_nonneg (le_of_lt hFpos), epsilon]
      exact not_lt.mpr hF
    refine ⟨⟨(1 - gr * gr - gi * gi) / ((gr + 1) * (gr + 1) + gi * gi),
            (-2 * gi) / ((gr + 1) * (gr + 1) + gi * gi)⟩, ?_, ?_⟩
    · simp only [rflCoeffToAdmittance]
      rw [if_neg hg1]
    · have hden : ((1 - gr * gr - gi * gi) / ((gr + 1) * (gr + 1) + gi * gi) + 1) *
            ((1 - gr * gr - gi * gi) / ((gr + 1) * (gr + 1) + gi * gi) + 1) +
            (-2 * gi) / ((gr + 1) * (gr + 1) + gi * gi) *
            ((-2 * gi) / ((gr + 1) * (gr + 1) + gi * gi))
          = 4 / ((gr + 1) * (gr + 1) + gi * gi) := by
        field_simp
        ring
      have hdenge : (1 : ℝ) ≤ 4 / ((gr + 1) * (gr + 1) + gi * gi) :=
        (one_le_div hFpos).mpr (by linarith)
      have hg2 : ¬ (|((1 - gr * gr - gi * gi) / ((gr + 1) * (gr + 1) + gi * gi) + 1) *
            ((1 - gr * gr - gi * gi) / ((gr + 1) * (gr + 1) + gi * gi) + 1) +
            (-2 * gi) / ((gr + 1) * (gr + 1) + gi * gi) *
            ((-2 * gi) / ((gr + 1) * (gr + 1) + gi * gi))| < epsilon) := by
        rw [hden, abs_of_nonneg (by positivity), epsilon]
        push_neg
        linarith
      have hnum_re : 1 - (1 - gr * gr - gi * gi) / ((gr + 1) * (gr + 1) + gi * gi) *
            ((1 - gr * gr - gi * gi) / ((gr + 1) * (gr + 1) + gi * gi)) -
            (-2 * gi) / ((gr + 1) * (gr + 1) + gi * gi) *
            ((-2 * gi) / ((gr + 1) * (gr + 1) + gi * gi))
          = gr * (4 / ((gr + 1) * (gr + 1) + gi * gi)) := by
        field_simp
        ring
      have hnum_im : -2 * ((-2 * gi) / ((gr + 1) * (gr + 1) + gi * gi))
          = gi * (4 / ((gr + 1) * (gr + 1) + gi * gi)) := by
        field_simp
        ring
      have h40 : 4 / ((gr + 1) * (gr + 1) + gi * gi) ≠ 0 := by positivity
      refine ⟨⟨gr, gi⟩, ?_, ?_, ?_⟩
      · simp only [admittanceToRflCoeff]
        rw [if_neg hg2, hnum_re, hnum_im, hden, mul_div_assoc, mul_div_assoc,
          div_self h40, mul_one, mul_one]
      · simp only [sub_self, abs_zero]
        norm_num
      · simp only [sub_self, abs_zero]
        norm_num

/-- Witness for C1 amended at `Γ = (0.5, 0)`. -/
theorem roundtrip_amended_witness :
    (∃ z, rflCoeffToImpedance ⟨0.5, 0⟩ = some z ∧
      ∃ g', impedanceToRflCoeff z = some g' ∧
        |g'.real - (Complex.mk 0.5 0).real| ≤ 1e-9 ∧
        |g'.imag - (Complex.mk 0.5 0).imag| ≤ 1e-9) ∧
    (∃ y, rflCoeffToAdmittance ⟨0.5, 0⟩ = some y ∧
      ∃ g', admittanceToRflCoeff y = some g' ∧
        |g'.real - (Complex.mk 0.5 0).real| ≤ 1e-9 ∧
        |g'.imag - (Complex.mk 0.5 0).imag| ≤ 1e-9) := by
  have h : Complex.abs ⟨0.5, 0⟩ < 1 - 1e-5 := by
    have habs : Complex.abs ⟨0.5, 0⟩ = 0.5 := by
      simp only [Complex.abs]
      rw [show (0.5 : ℝ) ^ 2 + 0 ^ 2 = 0.5 ^ 2 by norm_num,
        Real.sqrt_sq (by norm_num)]
    rw [habs]; norm_num
  exact roundtrip_amended ⟨0.5, 0⟩ h

end SmithEngine

namespace SmithEngine

open SmithConstantCircle

/-- The source's `rflCoeffEOrI` is the magnitude of the reflection
coefficient. -/
theorem rflCoeffEOrI_eq_abs (c : Complex) : rflCoeffEOrI c = c.abs := by
  simp only [rflCoeffEOrI, rflCoeffP]
  exact Real.sqrt_sq (Real.sqrt_nonneg _)

/-- Magnitude of a complex number with a non-negative real part and zero
imaginary part. -/
theorem abs_of_nonneg_real (x : ℝ) (hx : 0 ≤ x) : Complex.abs ⟨x, 0⟩ = x := by
  simp only [Complex.abs]
  rw [show x ^ 2 + (0 : ℝ) ^ 2 = x ^ 2 by ring, Real.sqrt_sq hx]

/-- C7: the scalar metric functions invert their companion constructors:
for `rl ≥ 0`, `rflCoeffToReturnLoss (returnLossToRflCoeffEOrI rl, 0) = rl`,
and for `swr ≥ 1` and any `Γ` with `|Γ| = swrToRflCoeffEOrI swr`,
`dBSToSwr (swrTodBS (rflCoeffToSwr Γ)) = swr` (exact equalities in real
arithmetic, hence within any floating-point tolerance). -/
theorem inverse_pairs :
    (∀ rl : ℝ, 0 ≤ rl →
      rflCoeffToReturnLoss ⟨returnLossToRflCoeffEOrI rl, 0⟩ = rl) ∧
    (∀ swr : ℝ, 1 ≤ swr → ∀ g : Complex, g.abs = swrToRflCoeffEOrI swr →
      dBSToSwr (swrTodBS (rflCoeffToSwr g)) = swr) := by
  constructor
  · intro rl _
    have hx : (0 : ℝ) < returnLossToRflCoeffEOrI rl :=
      Real.rpow_pos_of_pos (by norm_num) _
    rw [rflCoeffToReturnLoss, rflCoeffEOrI_eq_abs, abs_of_nonneg_real _ hx.le,
      returnLossToRflCoeffEOrI, Real.logb_rpow (by norm_num) (by norm_num)]
    ring
  · intro swr hswr g hg
    have h1 : (0 : ℝ) < swr + 1 := by linarith
    have hne : swr + 1 ≠ 0 := ne_of_gt h1
    have hswrval : rflCoeffToSwr g = swr := by
      rw [rflCoeffToSwr, hg, swrToRflCoeffEOrI]
      have e1 : (1 : ℝ) + (swr - 1) / (swr + 1) = 2 * swr / (swr + 1) := by
        field_simp
        ring
      have e2 : (1 : ℝ) - (swr - 1) / (swr + 1) = 2 / (swr + 1) := by
        field_simp
        ring
      rw [e1, e2]
      field_simp
    rw [hswrval, swrTodBS, dBSToSwr,
      show 20 * Real.logb 10 swr / 20 = Real.logb 10 swr by ring,
      Real.rpow_logb (by norm_num) (by norm_num) (by linarith)]

/-- Witness for C7 at `rl = 20` and `swr = 3`, `Γ = (1/2, 0)`. -/
theorem inverse_pairs_witness :
    rflCoeffToReturnLoss ⟨returnLossToRflCoeffEOrI 20, 0⟩ = 20 ∧
    dBSToSwr (swrTodBS (rflCoeffToSwr ⟨1 / 2, 0⟩)) = 3 := by
  refine ⟨inverse_pairs.1 20 (by norm_num), inverse_pairs.2 3 (by norm_num) ⟨1 / 2, 0⟩ ?_⟩
  rw [abs_of_nonneg_real _ (by norm_num), swrToRflCoeffEOrI]
  norm_num

/-- C8: with `Z0 = 50` and `Γ = (0,0)` the computed impedance is `(50, 0)`,
the computed admittance is `(20, 0)` in millisiemens, the SWR is `1`, the
return loss is `+∞` (the source computes `-20·log10(0)`, which in IEEE
arithmetic is positive infinity, modelled by `⊤` in `EReal`), and the
mismatch loss is `0`. -/
theorem boundary_gamma_zero :
    Smith.calcImpedance 50 ⟨0, 0⟩ = some (50, 0) ∧
    Smith.calcAdmittance 50 ⟨0, 0⟩ = some (20, 0) ∧
    rflCoeffToSwr ⟨0, 0⟩ = 1 ∧
    rflCoeffToReturnLossE ⟨0, 0⟩ = ⊤ ∧
    rflCoeffToMismatchLoss ⟨0, 0⟩ = 0 := by
  have h0 : Complex.abs ⟨0, 0⟩ = 0 := abs_of_nonneg_real 0 le_rfl
  have hE : rflCoeffEOrI ⟨0, 0⟩ = 0 := by rw [rflCoeffEOrI_eq_abs, h0]
  have himp : rflCoeffToImpedance ⟨0, 0⟩ = some ⟨1, 0⟩ := by
    simp only [rflCoeffToImpedance, epsilon]
    norm_num
  have hadm : rflCoeffToAdmittance ⟨0, 0⟩ = some ⟨1, 0⟩ := by
    simp only [rflCoeffToAdmittance, epsilon]
    norm_num
  refine ⟨?_, ?_, ?_, ?_, ?_⟩
  · rw [Smith.calcImpedance, himp]
    simp only [Option.map_some']
    norm_num [Prod.mk.injEq]
  · rw [Smith.calcAdmittance, hadm]
    simp only [Option.map_some']
    norm_num [Prod.mk.injEq]
  · rw [rflCoeffToSwr, h0]
    norm_num
  · rw [rflCoeffToReturnLossE, if_pos hE]
  · rw [rflCoeffToMismatchLoss, hE]
    norm_num

end SmithEngine

namespace SmithEngine

open SmithConstantCircle

/-- Algebraic core of the intersection computation for
`resistanceCircle 1` and `reactanceCircle 1`: the distance between the two
centers is `t` with `t * t = 5/4`, and all four point components reduce to
rational values. -/
lemma intersection_components (t : ℝ) (htt : t * t = 5 / 4) (htpos : 0 < t) :
    (1 / 4 / t * ((t * t + 1 / 4 - 1) / (2 * t * (1 / 2))) -
        1 / 2 / t * Real.sqrt (1 - ((t * t + 1 / 4 - 1) / (2 * t * (1 / 2))) ^ 2) + 1 / 2 = 1 / 5 ∧
      1 / 4 / t * Real.sqrt (1 - ((t * t + 1 / 4 - 1) / (2 * t * (1 / 2))) ^ 2) +
        1 / 2 / t * ((t * t + 1 / 4 - 1) / (2 * t * (1 / 2))) = 2 / 5) ∧
    (1 / 4 / t * ((t * t + 1 / 4 - 1) / (2 * t * (1 / 2))) +
        1 / 2 / t * Real.sqrt (1 - ((t * t + 1 / 4 - 1) / (2 * t * (1 / 2))) ^ 2) + 1 / 2 = 1 ∧
      1 / 2 / t * ((t * t + 1 / 4 - 1) / (2 * t * (1 / 2))) -
        1 / 4 / t * Real.sqrt (1 - ((t * t + 1 / 4 - 1) / (2 * t * (1 / 2))) ^ 2) = 0) := by
  have htne : t ≠ 0 := ne_of_gt htpos
  have hcos : (t * t + 1 / 4 - 1) / (2 * t * (1 / 2)) = 1 / (2 * t) := by
    rw [htt, show 2 * t * (1 / 2 : ℝ) = t by ring]
    norm_num
    ring
  rw [hcos]
  have harg : 1 - (1 / (2 * t)) ^ 2 = (1 / t) ^ 2 := by
    field_simp
    linear_combination (4 * t * t) * htt
  have hsin : Real.sqrt (1 - (1 / (2 * t)) ^ 2) = 1 / t := by
    rw [harg, Real.sqrt_sq (by positivity : (0 : ℝ) ≤ 1 / t)]
  rw [hsin]
  refine ⟨⟨?_, ?_⟩, ?_, ?_⟩
  · field_simp
    linear_combination (48 * t * t) * htt
  · field_simp
    linear_combination (-32 * t * t) * htt
  · field_simp
    linear_combination (-16 * t * t) * htt
  · field_simp
    ring

lemma resistanceCircle_one : resistanceCircle 1 = ⟨(1 / 2, 0), 1 / 2⟩ := by
  simp only [resistanceCircle, Circle.mk.injEq, Prod.mk.injEq]
  norm_num

lemma reactanceCircle_one : reactanceCircle 1 = ⟨(1, 1), 1⟩ := by
  simp only [reactanceCircle, Circle.mk.injEq, Prod.mk.injEq]
  norm_num

/-- The intersection of the `r = 1` resistance circle and the `x = 1`
reactance circle consists of the points `(1/5, 2/5)` and `(1, 0)`. -/
lemma circleCircleIntersection_res1_rea1 :
    circleCircleIntersection (resistanceCircle 1) (reactanceCircle 1)
      = [(1 / 5, 2 / 5), (1, 0)] := by
  rw [resistanceCircle_one, reactanceCircle_one]
  simp only [circleCircleIntersection]
  norm_num
  have htt : Real.sqrt 5 / Real.sqrt 4 * (Real.sqrt 5 / Real.sqrt 4) = 5 / 4 := by
    rw [div_mul_div_comm,
      Real.mul_self_sqrt (by norm_num : (0 : ℝ) ≤ 5),
      Real.mul_self_sqrt (by norm_num : (0 : ℝ) ≤ 4)]
  have htpos : 0 < Real.sqrt 5 / Real.sqrt 4 := by positivity
  exact intersection_components (Real.sqrt 5 / Real.sqrt 4) htt htpos

/-- C4: each of the two points returned by
`circleCircleIntersection (resistanceCircle 1) (reactanceCircle 1)`
satisfies the `isPointWithinCircle` inequality for both circles within
tolerance `1e-6`: `(p.x - c.x)² + (p.y - c.y)² ≤ c.r² + 1e-6`. -/
theorem intersection_within_both_circles :
    ∀ p ∈ circleCircleIntersection (resistanceCircle 1) (reactanceCircle 1),
      ((p.1 - (resistanceCircle 1).p.1) ^ 2 + (p.2 - (resistanceCircle 1).p.2) ^ 2
          ≤ (resistanceCircle 1).r ^ 2 + 1e-6) ∧
      ((p.1 - (reactanceCircle 1).p.1) ^ 2 + (p.2 - (reactanceCircle 1).p.2) ^ 2
          ≤ (reactanceCircle 1).r ^ 2 + 1e-6) := by
  intro p hp
  rw [circleCircleIntersection_res1_rea1] at hp
  rw [resistanceCircle_one, reactanceCircle_one]
  simp only [List.mem_cons, List.not_mem_nil, or_false] at hp
  rcases hp with h | h <;> subst h <;> constructor <;> norm_num

/-- Witness for C4 at the returned point `(1, 0)`. -/
theorem intersection_within_both_circles_witness :
    (((1 : ℝ) - (resistanceCircle 1).p.1) ^ 2 + ((0 : ℝ) - (resistanceCircle 1).p.2) ^ 2
        ≤ (resistanceCircle 1).r ^ 2 + 1e-6) ∧
    (((1 : ℝ) - (reactanceCircle 1).p.1) ^ 2 + ((0 : ℝ) - (reactanceCircle 1).p.2) ^ 2
        ≤ (reactanceCircle 1).r ^ 2 + 1e-6) :=
  intersection_within_both_circles (1, 0)
    (by rw [circleCircleIntersection_res1_rea1]; simp)

end SmithEngine
